import Mathlib

/-!
Verification development for the job event pipeline of the `bob` automation
agent (Go sources: `monitor.go` and the Claude Code stream translator in
`claudecode.go` / its later revision).  The Go code is shallowly embedded:

* machine strings are modelled as Lean `String` / `List Char` (Go byte
  strings hold UTF-8 text in all code paths considered; byte positions and
  char positions coincide on the ASCII data the claims exercise, noted at
  each use);
* `encoding/json` is modelled by an executable JSON value parser
  (`jsonParse`) plus per-struct decoders mirroring `json.Unmarshal`
  semantics for exactly the target struct types used by the code
  (unknown keys ignored, case-insensitive key fallback, `null` is a
  field-wise no-op, type mismatches are errors, duplicate keys last-wins);
* JSON numbers are modelled exactly as rationals (`ℚ`); the code performs
  no float arithmetic on the paths the claims exercise apart from
  assignment and one addition, so no rounding model is needed;
* goroutine interleaving of `Hub.Emit` producers with the single `Hub.run`
  consumer is modelled by an explicit action schedule over a hub state.
-/

/-! ## Go string helpers (`strings.TrimSpace`, `strings.Split`, …) -/

/-- Characters for which Go's `unicode.IsSpace` returns true. -/
def isGoSpace (c : Char) : Bool :=
  c = ' ' || c = '\t' || c = '\n' || c = '\x0b' || c = '\x0c' || c = '\r' ||
  c.toNat = 0x85 || c.toNat = 0xa0 || c.toNat = 0x1680 ||
  (0x2000 ≤ c.toNat && c.toNat ≤ 0x200a) ||
  c.toNat = 0x2028 || c.toNat = 0x2029 || c.toNat = 0x202f ||
  c.toNat = 0x205f || c.toNat = 0x3000

/-- Model of `strings.TrimSpace`. -/
def goTrimSpace (s : String) : String :=
  String.mk (((s.data.dropWhile isGoSpace).reverse.dropWhile isGoSpace).reverse)

/-- Split a character list at newline characters (helper for `goSplitLines`). -/
def splitNl : List Char → List (List Char)
  | [] => [[]]
  | '\n' :: rest => [] :: splitNl rest
  | c :: rest =>
    match splitNl rest with
    | l :: ls => (c :: l) :: ls
    | [] => [[c]]

/-- Model of Go `strings.Split(s, "\n")`. -/
def goSplitLines (s : String) : List String :=
  (splitNl s.data).map String.mk

/-- Model of Go `strings.Join(lines, "\n")`. -/
def joinNl : List String → String
  | [] => ""
  | [s] => s
  | s :: rest => s ++ "\n" ++ joinNl rest

/-- Model of Go `strings.HasPrefix`. -/
def goHasPrefix (s pre : String) : Bool :=
  pre.data.isPrefixOf s.data

/-- Model of the repository's `truncate(s, n)` helper (`anthropic.go`):
keep the first `n` bytes and append an ellipsis when the string is longer.
Byte length is modelled as character count (call sites pass ASCII-safe
diagnostic text). -/
def truncateGo (s : String) (n : Nat) : String :=
  if s.length ≤ n then s else String.mk (s.data.take n) ++ "..."

/-- ASCII lower-casing, used to model `strings.EqualFold` on the ASCII
field names that `encoding/json` matches case-insensitively. -/
def asciiLower (s : String) : String :=
  String.mk (s.data.map fun c =>
    if 'A' ≤ c ∧ c ≤ 'Z' then Char.ofNat (c.toNat + 32) else c)

/-- Model of `strings.EqualFold` restricted to ASCII (all JSON field names
the decoders match are ASCII). -/
def eqFold (a b : String) : Bool :=
  asciiLower a = asciiLower b

/-! ## JSON values and a model of `encoding/json` parsing -/

/-- A parsed JSON value.  This also serves as the model of Go's `any`
(`interface{}` holding `string` / `float64` / `bool` / `nil` / `[]any` /
`map[string]any`) for event payload maps; object fields keep document
order with duplicate keys collapsed last-wins where a Go map is built. -/
inductive JValue where
  | null : JValue
  | bool (b : Bool) : JValue
  | num (q : ℚ) : JValue
  | str (s : String) : JValue
  | arr (elems : List JValue) : JValue
  | obj (fields : List (String × JValue)) : JValue

/-- Skip JSON insignificant whitespace (space, tab, newline, carriage
return — the whitespace set of RFC 8259, which `encoding/json` uses). -/
def skipWs : List Char → List Char
  | [] => []
  | c :: rest =>
    if c = ' ' ∨ c = '\t' ∨ c = '\n' ∨ c = '\r' then skipWs rest else c :: rest

/-- Value of a hexadecimal digit character. -/
def hexVal (c : Char) : Option Nat :=
  if '0' ≤ c ∧ c ≤ '9' then some (c.toNat - 48)
  else if 'a' ≤ c ∧ c ≤ 'f' then some (c.toNat - 87)
  else if 'A' ≤ c ∧ c ≤ 'F' then some (c.toNat - 55)
  else none

/-- Value of a four-digit hexadecimal escape. -/
def hex4 (a b c d : Char) : Option Nat := do
  let x ← hexVal a
  let y ← hexVal b
  let z ← hexVal c
  let w ← hexVal d
  pure (((x * 16 + y) * 16 + z) * 16 + w)

/-- The Unicode replacement character, produced by `encoding/json` for
invalid surrogate escapes. -/
def replacementChar : Char := Char.ofNat 0xFFFD

/-- Parse the body of a JSON string (after the opening quote), returning
the decoded string and the remaining input.  Mirrors `encoding/json`:
standard escapes, `\uXXXX` with surrogate-pair handling (invalid
surrogates become U+FFFD), raw control characters rejected. -/
def parseStringBody : Nat → List Char → List Char → Option (String × List Char)
  | _, [], _ => none
  | 0, _, _ => none
  | fuel + 1, c :: rest, acc =>
    if c = '"' then some (String.mk acc.reverse, rest)
    else if c = '\\' then
      match rest with
      | [] => none
      | e :: rest2 =>
        if e = '"' then parseStringBody fuel rest2 ('"' :: acc)
        else if e = '\\' then parseStringBody fuel rest2 ('\\' :: acc)
        else if e = '/' then parseStringBody fuel rest2 ('/' :: acc)
        else if e = 'b' then parseStringBody fuel rest2 ('\x08' :: acc)
        else if e = 'f' then parseStringBody fuel rest2 ('\x0c' :: acc)
        else if e = 'n' then parseStringBody fuel rest2 ('\n' :: acc)
        else if e = 'r' then parseStringBody fuel rest2 ('\r' :: acc)
        else if e = 't' then parseStringBody fuel rest2 ('\t' :: acc)
        else if e = 'u' then
          match rest2 with
          | h1 :: h2 :: h3 :: h4 :: rest3 =>
            match hex4 h1 h2 h3 h4 with
            | none => none
            | some u =>
              if 0xD800 ≤ u ∧ u ≤ 0xDBFF then
                match rest3 with
                | '\\' :: 'u' :: g1 :: g2 :: g3 :: g4 :: rest4 =>
                  match hex4 g1 g2 g3 g4 with
                  | some v =>
                    if 0xDC00 ≤ v ∧ v ≤ 0xDFFF then
                      parseStringBody fuel rest4
                        (Char.ofNat (0x10000 + (u - 0xD800) * 0x400 + (v - 0xDC00)) :: acc)
                    else parseStringBody fuel rest3 (replacementChar :: acc)
                  | none => parseStringBody fuel rest3 (replacementChar :: acc)
                | _ => parseStringBody fuel rest3 (replacementChar :: acc)
              else if 0xDC00 ≤ u ∧ u ≤ 0xDFFF then
                parseStringBody fuel rest3 (replacementChar :: acc)
              else parseStringBody fuel rest3 (Char.ofNat u :: acc)
          | _ => none
        else none
    else if c.toNat < 0x20 then none
    else parseStringBody fuel rest (c :: acc)

/-- Decimal value of a digit list. -/
def digitsToNat (ds : List Char) : Nat :=
  ds.foldl (fun acc c => acc * 10 + (c.toNat - 48)) 0

/-- Parse an optional fractional part `.digits` of a JSON number. -/
def parseFrac : List Char → Option (List Char × List Char)
  | '.' :: r =>
    let p : List Char × List Char := r.span fun c => c.isDigit
    if p.1 = [] then none else some (p.1, p.2)
  | cs => some ([], cs)

/-- Parse an optional exponent part `[eE][+-]?digits` of a JSON number. -/
def parseExp : List Char → Option (Int × List Char)
  | [] => some (0, [])
  | c :: r =>
    if c = 'e' ∨ c = 'E' then
      let p : Int × List Char :=
        match r with
        | '+' :: rr => (1, rr)
        | '-' :: rr => (-1, rr)
        | _ => (1, r)
      let q : List Char × List Char := p.2.span fun ch => ch.isDigit
      if q.1 = [] then none else some (p.1 * (digitsToNat q.1 : Int), q.2)
    else some (0, c :: r)

/-- Parse a JSON number per RFC 8259 (the grammar `encoding/json`
enforces), returning its exact rational value. -/
def parseNumber (cs : List Char) : Option (ℚ × List Char) :=
  let p : Bool × List Char := match cs with
    | '-' :: r => (true, r)
    | _ => (false, cs)
  let q : List Char × List Char := p.2.span fun c => c.isDigit
  if q.1 = [] then none
  else if 1 < q.1.length ∧ q.1.headD 'x' = '0' then none
  else match parseFrac q.2 with
  | none => none
  | some (fracDs, rest2) =>
    match parseExp rest2 with
    | none => none
    | some (e, rest3) =>
      let mant : Int := (digitsToNat (q.1 ++ fracDs) : Int)
      let mant := if p.1 then -mant else mant
      some ((mant : ℚ) * (10 : ℚ) ^ (e - (fracDs.length : Int)), rest3)

mutual

/-- Parse one JSON value, returning it and the remaining input.  Fuel
decreases on every nesting step and every aggregate member; callers pass
`input length + 1`, which suffices since each step consumes input. -/
def parseValue : Nat → List Char → Option (JValue × List Char)
  | 0, _ => none
  | fuel + 1, cs =>
    match skipWs cs with
    | 'n' :: 'u' :: 'l' :: 'l' :: rest => some (.null, rest)
    | 't' :: 'r' :: 'u' :: 'e' :: rest => some (.bool true, rest)
    | 'f' :: 'a' :: 'l' :: 's' :: 'e' :: rest => some (.bool false, rest)
    | '"' :: rest =>
      match parseStringBody (rest.length + 1) rest [] with
      | some (s, r) => some (.str s, r)
      | none => none
    | '\x7b' :: rest =>
      match skipWs rest with
      | '\x7d' :: r => some (.obj [], r)
      | _ => parseMembers fuel rest []
    | '[' :: rest =>
      match skipWs rest with
      | ']' :: r => some (.arr [], r)
      | _ => parseElems fuel rest []
    | cs2 =>
      match parseNumber cs2 with
      | some (q, r) => some (.num q, r)
      | none => none

/-- Parse the members of a JSON object after the opening brace (non-empty
case), accumulating key/value pairs in document order. -/
def parseMembers : Nat → List Char → List (String × JValue) →
    Option (JValue × List Char)
  | 0, _, _ => none
  | fuel + 1, cs, acc =>
    match skipWs cs with
    | '"' :: rest =>
      match parseStringBody (rest.length + 1) rest [] with
      | none => none
      | some (k, r1) =>
        match skipWs r1 with
        | ':' :: r2 =>
          match parseValue fuel r2 with
          | none => none
          | some (v, r3) =>
            match skipWs r3 with
            | ',' :: r4 => parseMembers fuel r4 (acc ++ [(k, v)])
            | '\x7d' :: r4 => some (.obj (acc ++ [(k, v)]), r4)
            | _ => none
        | _ => none
    | _ => none

/-- Parse the elements of a JSON array after the opening bracket
(non-empty case). -/
def parseElems : Nat → List Char → List JValue → Option (JValue × List Char)
  | 0, _, _ => none
  | fuel + 1, cs, acc =>
    match parseValue fuel cs with
    | none => none
    | some (v, r1) =>
      match skipWs r1 with
      | ',' :: r2 => parseElems fuel r2 (acc ++ [v])
      | ']' :: r2 => some (.arr (acc ++ [v]), r2)
      | _ => none

end

/-- Model of parsing a complete JSON document the way `json.Unmarshal`
does: one value, with only whitespace allowed after it. -/
def jsonParse (s : String) : Option JValue :=
  match parseValue (s.data.length + 1) s.data with
  | some (v, rest) => if skipWs rest = [] then some v else none
  | none => none

/-! ## Decoders mirroring `json.Unmarshal` into the translator's structs -/

/-- Structured outcome reported by Claude Code at the end of its run
(`TerminalState` in the source): a status (`completed`,
`needs_information`, or `error`) and a message. -/
structure TerminalState where
  status : String
  message : String
deriving DecidableEq

/-- The zero value of `TerminalState`. -/
def TerminalState.zero : TerminalState := ⟨"", ""⟩

/-- Apply one JSON object member to a `TerminalState` being decoded.
Mirrors `json.Unmarshal` field handling: ASCII-case-insensitive key
match, `null` leaves the field unchanged, a non-string value for a
string field is a decode error, unknown keys are ignored. -/
def setTSField (ts : TerminalState) (k : String) (v : JValue) :
    Option TerminalState :=
  if eqFold k "status" then
    match v with
    | .str s => some { ts with status := s }
    | .null => some ts
    | _ => none
  else if eqFold k "message" then
    match v with
    | .str s => some { ts with message := s }
    | .null => some ts
    | _ => none
  else some ts

/-- Model of `json.Unmarshal(line, &ts)` for `TerminalState`: `null` is a
no-op on the zero value, an object is decoded member-wise (later
duplicates win), any other value is a type error. -/
def decodeTerminalState : JValue → Option TerminalState
  | .null => some TerminalState.zero
  | .obj kvs => kvs.foldlM (fun ts kv => setTSField ts kv.1 kv.2) TerminalState.zero
  | _ => none

/-- The literal prefix a Terminal State line must start with
(`claudecode.go`): the opening of the status JSON object. -/
def terminalStatePrefix : String := "\x7b\"status\":"

/-- Model of `tryParseTerminalState` (`claudecode.go`): trim the line,
require the literal `{"status":` prefix, require the trimmed line to
parse as a `TerminalState`, and accept only a non-empty status. -/
def tryParseTerminalState (line : String) : Option TerminalState :=
  let line := goTrimSpace line
  if goHasPrefix line terminalStatePrefix then
    match (jsonParse line).bind decodeTerminalState with
    | none => none
    | some ts => if ts.status = "" then none else some ts
  else none

/-- The nested `Message` struct of `claudeStreamEvent`: a role and a list
of raw content blocks (`[]json.RawMessage`, modelled as parsed values). -/
structure StreamMessage where
  role : String := ""
  content : List JValue := []
deriving Inhabited

/-- Model of `claudeStreamEvent` (`claudecode.go`): the shapes of
`--output-format stream-json` records the translator cares about. -/
structure StreamEvent where
  type : String := ""
  subtype : String := ""
  parentToolUseID : String := ""
  message : StreamMessage := {}
  result : String := ""
  error : String := ""
deriving Inhabited

/-- Decode a string-typed field value: string assigns, `null` no-ops,
anything else is a decode error. -/
def decodeStrField (cur : String) : JValue → Option String
  | .str s => some s
  | .null => some cur
  | _ => none

/-- Decode a member of the nested message struct (`role`, `content`). -/
def setMsgField (m : StreamMessage) (k : String) (v : JValue) :
    Option StreamMessage :=
  if eqFold k "role" then
    (decodeStrField m.role v).map fun s => { m with role := s }
  else if eqFold k "content" then
    match v with
    | .arr xs => some { m with content := xs }
    | .null => some { m with content := [] }
    | _ => none
  else some m

/-- Model of unmarshalling into the nested message struct. -/
def decodeStreamMessageInto (m : StreamMessage) : JValue → Option StreamMessage
  | .null => some m
  | .obj kvs => kvs.foldlM (fun m kv => setMsgField m kv.1 kv.2) m
  | _ => none

/-- Decode a member of `claudeStreamEvent`. -/
def setEvtField (e : StreamEvent) (k : String) (v : JValue) :
    Option StreamEvent :=
  if eqFold k "type" then
    (decodeStrField e.type v).map fun s => { e with type := s }
  else if eqFold k "subtype" then
    (decodeStrField e.subtype v).map fun s => { e with subtype := s }
  else if eqFold k "parent_tool_use_id" then
    (decodeStrField e.parentToolUseID v).map fun s => { e with parentToolUseID := s }
  else if eqFold k "message" then
    (decodeStreamMessageInto e.message v).map fun m => { e with message := m }
  else if eqFold k "result" then
    (decodeStrField e.result v).map fun s => { e with result := s }
  else if eqFold k "error" then
    (decodeStrField e.error v).map fun s => { e with error := s }
  else some e

/-- Model of `json.Unmarshal([]byte(line), &evt)` for `claudeStreamEvent`. -/
def decodeStreamEvent : JValue → Option StreamEvent
  | .null => some {}
  | .obj kvs => kvs.foldlM (fun e kv => setEvtField e kv.1 kv.2) {}
  | _ => none

/-- Model of `claudeContentBlock` (`claudecode.go`).  `input` is a
`json.RawMessage`: `none` models the absent/nil raw message, `some v`
models raw bytes that parse to `v` (any JSON value, including `null`). -/
structure ContentBlock where
  type : String := ""
  text : String := ""
  thinking : String := ""
  name : String := ""
  id : String := ""
  input : Option JValue := none
deriving Inhabited

/-- Decode a member of `claudeContentBlock`. -/
def setBlockField (b : ContentBlock) (k : String) (v : JValue) :
    Option ContentBlock :=
  if eqFold k "type" then
    (decodeStrField b.type v).map fun s => { b with type := s }
  else if eqFold k "text" then
    (decodeStrField b.text v).map fun s => { b with text := s }
  else if eqFold k "thinking" then
    (decodeStrField b.thinking v).map fun s => { b with thinking := s }
  else if eqFold k "name" then
    (decodeStrField b.name v).map fun s => { b with name := s }
  else if eqFold k "id" then
    (decodeStrField b.id v).map fun s => { b with id := s }
  else if eqFold k "input" then
    some { b with input := some v }
  else some b

/-- Model of `json.Unmarshal(raw, &block)` for `claudeContentBlock`. -/
def decodeContentBlock : JValue → Option ContentBlock
  | .null => some {}
  | .obj kvs => kvs.foldlM (fun b kv => setBlockField b kv.1 kv.2) {}
  | _ => none

/-- Model of `claudeToolResultBlock` (`claudecode.go`): a `tool_result`
content block inside a `user` record. -/
structure ToolResultBlock where
  type : String := ""
  toolUseID : String := ""
  content : String := ""
  isError : Bool := false
deriving Inhabited

/-- Decode a member of `claudeToolResultBlock`. -/
def setTRField (b : ToolResultBlock) (k : String) (v : JValue) :
    Option ToolResultBlock :=
  if eqFold k "type" then
    (decodeStrField b.type v).map fun s => { b with type := s }
  else if eqFold k "tool_use_id" then
    (decodeStrField b.toolUseID v).map fun s => { b with toolUseID := s }
  else if eqFold k "content" then
    (decodeStrField b.content v).map fun s => { b with content := s }
  else if eqFold k "is_error" then
    match v with
    | .bool x => some { b with isError := x }
    | .null => some b
    | _ => none
  else some b

/-- Model of `json.Unmarshal(raw, &block)` for `claudeToolResultBlock`. -/
def decodeToolResultBlock : JValue → Option ToolResultBlock
  | .null => some {}
  | .obj kvs => kvs.foldlM (fun b kv => setTRField b kv.1 kv.2) {}
  | _ => none

/-- Model of unmarshalling a `Task` tool input into the anonymous
`struct { Description string }` used for pending sub-task tracking. -/
def decodeTaskDescription : JValue → Option String
  | .null => some ""
  | .obj kvs => kvs.foldlM
      (fun d kv =>
        if eqFold kv.1 "description" then decodeStrField d kv.2 else some d) ""
  | _ => none

/-! ## Rendering a raw message back to text (for `string(block.Input)`) -/

/-- Hexadecimal digit character for `\u00XX` escapes. -/
def hexDigit (n : Nat) : Char :=
  if n < 10 then Char.ofNat (48 + n) else Char.ofNat (87 + n)

/-- Escape one character of a JSON string for rendering. -/
def escapeJChar (c : Char) : List Char :=
  if c = '"' then ['\\', '"']
  else if c = '\\' then ['\\', '\\']
  else if c = '\n' then ['\\', 'n']
  else if c = '\r' then ['\\', 'r']
  else if c = '\t' then ['\\', 't']
  else if c.toNat < 0x20 then
    ['\\', 'u', '0', '0', hexDigit (c.toNat / 16), hexDigit (c.toNat % 16)]
  else [c]

/-- Render a JSON string literal. -/
def renderJString (s : String) : String :=
  "\"" ++ String.mk (s.data.flatMap escapeJChar) ++ "\""

mutual

/-- Compact rendering of a JSON value.  This stands in for the raw bytes
of a `json.RawMessage` when the code converts them back to a string
(`string(input)` in `emitTool`); no claim inspects that payload text, so
a canonical re-rendering (rather than the original byte sequence) is an
adequate model.  Rational numbers that are not integers render in
numerator/denominator form, a cosmetic divergence with the same caveat. -/
def jsonRender : JValue → String
  | .null => "null"
  | .bool true => "true"
  | .bool false => "false"
  | .num q => if q.den = 1 then toString q.num else toString q
  | .str s => renderJString s
  | .arr xs => "[" ++ renderElemsR xs ++ "]"
  | .obj kvs => "\x7b" ++ renderMembersR kvs ++ "\x7d"

/-- Render array elements, comma-separated. -/
def renderElemsR : List JValue → String
  | [] => ""
  | [v] => jsonRender v
  | v :: rest => jsonRender v ++ "," ++ renderElemsR rest

/-- Render object members, comma-separated. -/
def renderMembersR : List (String × JValue) → String
  | [] => ""
  | [kv] => renderJString kv.1 ++ ":" ++ jsonRender kv.2
  | kv :: rest => renderJString kv.1 ++ ":" ++ jsonRender kv.2 ++ "," ++ renderMembersR rest

end

/-! ## The stream translator (`claudeStreamParser`) -/

/-- Payload of one `Hub.Emit` call made by the translator
(a `map[string]any`, modelled as key/value pairs in construction order;
every such call uses event type `claude_code_line`). -/
abbrev EmitData := List (String × JValue)

/-- Association-list helpers modelling the Go map
`pendingTaskDescs map[string]string` (lookup, insert/replace, delete). -/
def assocGet (l : List (String × String)) (k : String) : Option String :=
  (l.find? fun kv => kv.1 = k).map fun kv => kv.2

/-- Insert or replace a key in the pending-task map. -/
def assocPut (l : List (String × String)) (k v : String) :
    List (String × String) :=
  if l.any fun kv => kv.1 = k then l.map fun kv => if kv.1 = k then (k, v) else kv
  else l ++ [(k, v)]

/-- Delete a key from the pending-task map. -/
def assocDel (l : List (String × String)) (k : String) :
    List (String × String) :=
  l.filter fun kv => kv.1 ≠ k

/-- The translator state that `processLine` reads and writes.  `hasHub`
models `hub != nil`, `hasNotifier` models `notifier != nil`; `events`
collects the payloads of the `Hub.Emit` calls the translator makes (in
call order) and `notifications` the texts sent to the Slack notifier.
`now` is the (abstract, fixed) wall-clock milli-instant `time.Now()`
returns while a line is processed. -/
structure ParserCore where
  hasHub : Bool
  jobID : String
  hasNotifier : Bool
  suppressResultNotify : Bool
  now : Int
  result : String
  terminalState : TerminalState
  pendingTaskDescs : List (String × String)
  thinkingStartedAt : Int
  events : List EmitData
  notifications : List String

/-- Model of `p.emit` / `p.emitTool` / the inline guarded emits: append an
event payload when the hub is present and the job id is non-empty. -/
def coreEmit (p : ParserCore) (data : EmitData) : ParserCore :=
  if p.hasHub ∧ p.jobID ≠ "" then { p with events := p.events ++ [data] } else p

/-- Model of `p.emit(text)`: a `claude_code_line` event with a text payload. -/
def coreEmitText (p : ParserCore) (text : String) : ParserCore :=
  coreEmit p [("text", JValue.str text)]

/-- Model of `p.emitTool(name, input)`: event payload carrying the tool
name and the raw input rendered to a string (empty when absent). -/
def coreEmitTool (p : ParserCore) (name : String) (input : Option JValue) :
    ParserCore :=
  coreEmit p
    [("tool_name", JValue.str name),
     ("tool_input", JValue.str (match input with | none => "" | some v => jsonRender v))]

/-- Model of `p.notifier.Notify(ctx, text)` (call sites guard on the
notifier being present). -/
def coreNotify (p : ParserCore) (text : String) : ParserCore :=
  { p with notifications := p.notifications ++ [text] }

/-- The `text` content-block branch of `processLine` (`claudecode.go`):
scan each sub-line for terminal-state JSON (each hit overwrites the
captured state and is dropped from the output), notify Slack with the
filtered text for top-level turns, then emit each non-blank filtered
sub-line. -/
def processTextBlock (p : ParserCore) (parentToolUseID : String)
    (text : String) : ParserCore :=
  let r := (goSplitLines text).foldl
    (fun (acc : ParserCore × List String) textLine =>
      match tryParseTerminalState textLine with
      | some ts => ({ acc.1 with terminalState := ts }, acc.2)
      | none => (acc.1, acc.2 ++ [textLine]))
    (p, [])
  let filteredText := joinNl r.2
  let p1 :=
    if r.1.hasNotifier ∧ parentToolUseID = "" ∧ goTrimSpace filteredText ≠ "" then
      coreNotify r.1 filteredText
    else r.1
  r.2.foldl (fun q textLine =>
    if goTrimSpace textLine ≠ "" then coreEmitText q textLine else q) p1

/-- One content block of an `assistant` record (`claudecode.go`): decode
it, then dispatch on `text` / `thinking` / `tool_use` (anything else,
including undecodable blocks, is skipped). -/
def processAssistantBlock (parentToolUseID : String) (p : ParserCore)
    (raw : JValue) : ParserCore :=
  match decodeContentBlock raw with
  | none => p
  | some block =>
    if block.type = "text" then processTextBlock p parentToolUseID block.text
    else if block.type = "thinking" then
      let p := { p with thinkingStartedAt := p.now }
      coreEmit p
        [("thinking", JValue.str block.thinking),
         ("thinking_ts", JValue.num (p.now : ℚ))]
    else if block.type = "tool_use" then
      let p :=
        if block.name = "Task" ∧ block.id ≠ "" then
          match block.input with
          | some iv =>
            match decodeTaskDescription iv with
            | some d =>
              if d ≠ "" then
                { p with pendingTaskDescs := assocPut p.pendingTaskDescs block.id d }
              else p
            | none => p
          | none => p
        else p
      coreEmitTool p block.name block.input
    else p

/-- The `user` record branch of `processLine` (`claudecode.go`): walk the
`tool_result` blocks, emit a truncated `tool_error` for error results,
resolve pending delegated sub-tasks into a batch, and emit one
aggregated `agents_finished` event when the batch is non-empty. -/
def processUserEvent (p : ParserCore) (evt : StreamEvent) : ParserCore :=
  let r := evt.message.content.foldl
    (fun (acc : ParserCore × List String) raw =>
      match decodeToolResultBlock raw with
      | none => acc
      | some block =>
        if block.type ≠ "tool_result" then acc
        else if block.isError then
          (coreEmit acc.1 [("tool_error", JValue.str (truncateGo block.content 300))], acc.2)
        else
          match assocGet acc.1.pendingTaskDescs block.toolUseID with
          | some desc =>
            ({ acc.1 with pendingTaskDescs := assocDel acc.1.pendingTaskDescs block.toolUseID },
             acc.2 ++ [desc])
          | none => acc)
    (p, [])
  if r.2 ≠ [] then
    coreEmit r.1
      [("agents_finished", JValue.num (r.2.length : ℚ)),
       ("agents", JValue.arr (r.2.map fun d => JValue.obj [("description", JValue.str d)]))]
  else r.1

/-- First terminal-state candidate among the given lines (the `break`ing
scan of the result text in `processLine`). -/
def firstTerminalState : List String → Option TerminalState
  | [] => none
  | l :: rest =>
    match tryParseTerminalState l with
    | some ts => some ts
    | none => firstTerminalState rest

/-- The `result` record branch of `processLine` (`claudecode.go`): pick
the error or success payload as the result text, capture a terminal
state from it only if none was captured yet, emit every non-blank result
line, and notify Slack unless suppressed. -/
def processResultEvent (p : ParserCore) (evt : StreamEvent) : ParserCore :=
  let res := if evt.subtype = "error" ∧ evt.error ≠ "" then evt.error else evt.result
  let p := { p with result := res }
  let p :=
    if p.terminalState.status = "" then
      match firstTerminalState (goSplitLines res) with
      | some ts => { p with terminalState := ts }
      | none => p
    else p
  let p := (goSplitLines res).foldl
    (fun q textLine => if goTrimSpace textLine ≠ "" then coreEmitText q textLine else q) p
  if p.hasNotifier ∧ goTrimSpace res ≠ "" ∧ ¬ p.suppressResultNotify then
    coreNotify p res
  else p

/-- Model of `claudeStreamParser.processLine`: trim the line, drop it if
blank, emit it verbatim when it does not unmarshal as a stream record,
and otherwise dispatch on the record type (`system`, `rate_limit_event`
and unknown types are no-ops). -/
def processLine (p : ParserCore) (line0 : String) : ParserCore :=
  let line := goTrimSpace line0
  if line = "" then p
  else
    match (jsonParse line).bind decodeStreamEvent with
    | none => coreEmitText p line
    | some evt =>
      if evt.type = "assistant" then
        evt.message.content.foldl (processAssistantBlock evt.parentToolUseID) p
      else if evt.type = "user" then processUserEvent p evt
      else if evt.type = "result" then processResultEvent p evt
      else p

/-- The full translator state: the processing core plus the partial-line
buffer and the raw byte accumulation that `Write` maintains. -/
structure ParserState where
  core : ParserCore
  lineBuf : List Char
  raw : List Char

/-- One byte of `claudeStreamParser.Write`'s loop: a newline processes
the buffered line and clears the buffer, any other byte is appended. -/
def writeByte (p : ParserState) (b : Char) : ParserState :=
  if b = '\n' then
    { p with core := processLine p.core (String.mk p.lineBuf), lineBuf := [] }
  else { p with lineBuf := p.lineBuf ++ [b] }

/-- Model of `claudeStreamParser.Write(data)`: append the chunk to the
raw accumulation, then run the byte loop. -/
def parserWrite (p : ParserState) (data : List Char) : ParserState :=
  let q : ParserState := { p with raw := p.raw ++ data }
  data.foldl writeByte q

/-- Feed a sequence of chunks to `Write`, in order. -/
def writeAll (p : ParserState) (chunks : List (List Char)) : ParserState :=
  chunks.foldl parserWrite p

/-- Model of `claudeStreamParser.output()`: the result text if non-empty,
otherwise the raw accumulation. -/
def parserOutput (p : ParserState) : String :=
  if p.core.result ≠ "" then p.core.result else String.mk p.raw

/-- A freshly constructed translator core (`newClaudeStreamParser`). -/
def initCore (hasHub : Bool) (jobID : String) (hasNotifier : Bool)
    (suppressResultNotify : Bool) (now : Int) : ParserCore :=
  { hasHub := hasHub, jobID := jobID, hasNotifier := hasNotifier,
    suppressResultNotify := suppressResultNotify, now := now,
    result := "", terminalState := TerminalState.zero,
    pendingTaskDescs := [], thinkingStartedAt := 0,
    events := [], notifications := [] }

/-- A freshly constructed translator (`newClaudeStreamParser`). -/
def initParser (hasHub : Bool) (jobID : String) (hasNotifier : Bool)
    (suppressResultNotify : Bool) (now : Int) : ParserState :=
  { core := initCore hasHub jobID hasNotifier suppressResultNotify now,
    lineBuf := [], raw := [] }

/-! ## The event hub (`monitor.go`: `Hub.Emit` and `Hub.run`) -/

/-- A monitoring event (`Event` in `monitor.go`): sequence id (stringified),
job id, type, timestamp and open payload.  Event types are the string
constants of `monitor.go` (`job_started`, `llm_response`,
`claude_code_line`, `job_completed`, `job_error`, …); timestamps are
abstract instants (seconds). -/
structure Event where
  id : String
  jobID : String
  type : String
  timestamp : Int
  data : EmitData

/-- Capacity of the hub's ingestion channel (`make(chan Event, 4096)`). -/
def hubQueueCap : Nat := 4096

/-- Hub state: the bounded ingestion queue, the atomic sequence counter,
and the per-job log files (`files j` is the list of serialized event
records appended to `dataDir/j.jsonl`, one per line, in write order).
File opening/writing is modelled as always succeeding; a persistence
fault only skips one line's write in the source and is outside the
claims considered here.  SSE observers are not modelled (no claim is
about fan-out delivery). -/
structure HubState where
  queue : List Event
  seq : Nat
  files : String → List Event

/-- Model of `Hub.Emit(jobID, t, data)`: no-op on an empty job id;
otherwise take the next sequence number (the atomic increment happens
before the channel send, so dropped events still consume ids) and do a
non-blocking enqueue, dropping the event when the queue is full. -/
def hubEmit (h : HubState) (jobID : String) (t : String) (data : EmitData)
    (now : Int) : HubState :=
  if jobID = "" then h
  else
    let id := h.seq + 1
    let e : Event := ⟨toString id, jobID, t, now, data⟩
    if h.queue.length < hubQueueCap then
      { queue := h.queue ++ [e], seq := id, files := h.files }
    else { h with seq := id }

/-- One iteration of the `Hub.run` loop: dequeue the oldest event and
append it to its job's log file.  (The subsequent fan-out to SSE clients
touches neither the queue nor the files.) -/
def hubRunStep (h : HubState) : HubState :=
  match h.queue with
  | [] => h
  | e :: rest =>
    { queue := rest, seq := h.seq,
      files := fun j => if j = e.jobID then h.files j ++ [e] else h.files j }

/-- Run `hubRunStep` the given number of times. -/
def drainAux : Nat → HubState → HubState
  | 0, h => h
  | n + 1, h => drainAux n (hubRunStep h)

/-- Let the `run` goroutine catch up: process every queued event. -/
def drain (h : HubState) : HubState := drainAux h.queue.length h

/-- One step of an interleaved execution: either a producer calls
`Emit` (with the payload and the wall-clock instant of the call), or the
`run` goroutine processes one queued event. -/
inductive HubAction where
  | emit (t : String) (data : EmitData) (now : Int) : HubAction
  | runStep : HubAction

/-- Execute a schedule of actions for a fixed job id: an arbitrary
interleaving of sequential `Emit` calls for that job with iterations of
the hub's single processing loop. -/
def execSchedule (j : String) (h : HubState) : List HubAction → HubState
  | [] => h
  | .emit t d n :: rest => execSchedule j (hubEmit h j t d n) rest
  | .runStep :: rest => execSchedule j (hubRunStep h) rest

/-- Specification-side description of which `Emit` calls of a schedule
are accepted (not dropped): tracking only the queue length and the
sequence counter, produce the accepted events in call order. -/
def acceptedOf (j : String) : Nat → Nat → List HubAction → List Event
  | _, _, [] => []
  | qlen, seq, .emit t d n :: rest =>
    if qlen < hubQueueCap then
      ⟨toString (seq + 1), j, t, n, d⟩ :: acceptedOf j (qlen + 1) (seq + 1) rest
    else acceptedOf j qlen (seq + 1) rest
  | qlen, seq, .runStep :: rest => acceptedOf j (qlen - 1) seq rest

/-! ## The history read path (`Hub.ServeJobAPI`) and list path -/

/-- Result of `os.Open` on a job's log file, as the read path
distinguishes it: missing file, other I/O fault, or the file's lines. -/
inductive OpenResult where
  | notExist : OpenResult
  | ioError : OpenResult
  | content (lines : List String) : OpenResult

/-- Outcome of the history endpoint: HTTP 400 / 404 / 500, or 200 with
the decoded events. -/
inductive JobAPIResponse where
  | badRequest : JobAPIResponse
  | notFound : JobAPIResponse
  | serverError : JobAPIResponse
  | ok (events : List Event) : JobAPIResponse

/-- The scanner's maximum token size
(`scanner.Buffer(make([]byte, 1024*1024), 1024*1024)`). -/
def scannerMaxToken : Nat := 1024 * 1024

/-- Model of the `bufio.Scanner` loop: yield lines in order, but stop
(silently — `scanner.Err()` is never checked) at the first line that
reaches the maximum token size.  Line length is modelled as character
count (equal to byte count on ASCII content). -/
def scanLines : List String → List String
  | [] => []
  | l :: rest => if scannerMaxToken ≤ l.length then [] else l :: scanLines rest

/-- Two-digit decimal number. -/
def digit2 (a b : Char) : Option Nat :=
  if a.isDigit ∧ b.isDigit then some ((a.toNat - 48) * 10 + (b.toNat - 48))
  else none

/-- Leap-year test (proleptic Gregorian, as `time` uses). -/
def isLeapYear (y : Nat) : Bool :=
  y % 4 = 0 && (y % 100 ≠ 0 || y % 400 = 0)

/-- Number of days in a month. -/
def daysInMonth (y m : Nat) : Nat :=
  if m = 2 then (if isLeapYear y then 29 else 28)
  else if m = 4 ∨ m = 6 ∨ m = 9 ∨ m = 11 then 30
  else 31

/-- Days from the civil epoch 1970-01-01 to the given date
(standard civil-calendar formula, floor division). -/
def daysFromCivil (y m d : Nat) : Int :=
  let yy : Int := if m ≤ 2 then (y : Int) - 1 else (y : Int)
  let era : Int := Int.fdiv yy 400
  let yoe : Int := yy - era * 400
  let mp : Int := if 2 < m then (m : Int) - 3 else (m : Int) + 9
  let doy : Int := Int.fdiv (153 * mp + 2) 5 + (d : Int) - 1
  let doe : Int := yoe * 365 + Int.fdiv yoe 4 - Int.fdiv yoe 100 + doy
  era * 146097 + doe - 719468

/-- Seconds-since-epoch of Go's zero `time.Time` (0001-01-01T00:00:00Z),
the timestamp a decoded `Event` keeps when the JSON carries none. -/
def timeZeroSeconds : Int := daysFromCivil 1 1 1 * 86400

/-- Model of `time.Time.UnmarshalJSON`'s RFC 3339 parse: strict
`YYYY-MM-DDTHH:MM:SS[.fff](Z|±HH:MM)` with range checks, producing
seconds since epoch (the sub-second fraction is validated but dropped;
no claim compares sub-second instants). -/
def parseRFC3339 (s : String) : Option Int :=
  match s.data with
  | y1 :: y2 :: y3 :: y4 :: '-' :: m1 :: m2 :: '-' :: d1 :: d2 :: 'T' ::
    h1 :: h2 :: ':' :: n1 :: n2 :: ':' :: s1 :: s2 :: rest =>
    if ¬ (y1.isDigit ∧ y2.isDigit ∧ y3.isDigit ∧ y4.isDigit) then none
    else
      let y := digitsToNat [y1, y2, y3, y4]
      match digit2 m1 m2, digit2 d1 d2, digit2 h1 h2, digit2 n1 n2, digit2 s1 s2 with
      | some mo, some da, some ho, some mi, some se =>
        if mo < 1 ∨ 12 < mo ∨ da < 1 ∨ daysInMonth y mo < da ∨
            23 < ho ∨ 59 < mi ∨ 59 < se then none
        else
          let rest2 : Option (List Char) :=
            match rest with
            | '.' :: r =>
              let q : List Char × List Char := r.span fun c => c.isDigit
              if q.1 = [] then none else some q.2
            | r => some r
          match rest2 with
          | none => none
          | some tz =>
            let off : Option Int :=
              match tz with
              | ['Z'] => some 0
              | sign :: a1 :: a2 :: ':' :: b1 :: b2 :: [] =>
                if sign = '+' ∨ sign = '-' then
                  match digit2 a1 a2, digit2 b1 b2 with
                  | some oh, some om =>
                    if 23 < oh ∨ 59 < om then none
                    else some ((if sign = '-' then -1 else 1) *
                      ((oh : Int) * 3600 + (om : Int) * 60))
                  | _, _ => none
                else none
              | _ => none
            match off with
            | none => none
            | some o =>
              some (daysFromCivil y mo da * 86400 +
                (ho : Int) * 3600 + (mi : Int) * 60 + (se : Int) - o)
      | _, _, _, _, _ => none
  | _ => none

/-- Insert or replace a key in a decoded payload map (Go map assignment
while unmarshalling an object: later duplicate keys win). -/
def putJ (m : EmitData) (k : String) (v : JValue) : EmitData :=
  if m.any fun kv => kv.1 = k then m.map fun kv => if kv.1 = k then (k, v) else kv
  else m ++ [(k, v)]

/-- Lookup in a payload map (`e.Data[key]`). -/
def jlookup (m : EmitData) (k : String) : Option JValue :=
  (m.find? fun kv => kv.1 = k).map fun kv => kv.2

/-- Decode a member of the persisted `Event` struct (tags `id`, `job_id`,
`type`, `timestamp`, `data`). -/
def setEventField (e : Event) (k : String) (v : JValue) : Option Event :=
  if eqFold k "id" then
    (decodeStrField e.id v).map fun s => { e with id := s }
  else if eqFold k "job_id" then
    (decodeStrField e.jobID v).map fun s => { e with jobID := s }
  else if eqFold k "type" then
    (decodeStrField e.type v).map fun s => { e with type := s }
  else if eqFold k "timestamp" then
    match v with
    | .str s => (parseRFC3339 s).map fun t => { e with timestamp := t }
    | .null => some e
    | _ => none
  else if eqFold k "data" then
    match v with
    | .obj kvs => some { e with data := kvs.foldl (fun m kv => putJ m kv.1 kv.2) [] }
    | .null => some e
    | _ => none
  else some e

/-- The zero value of the persisted `Event` struct (zero `time.Time`). -/
def Event.zero : Event := ⟨"", "", "", timeZeroSeconds, []⟩

/-- Model of `json.Unmarshal(scanner.Bytes(), &e)` for `Event`. -/
def decodeEvent : JValue → Option Event
  | .null => some Event.zero
  | .obj kvs => kvs.foldlM (fun e kv => setEventField e kv.1 kv.2) Event.zero
  | _ => none

/-- Decode one log line as an `Event`. -/
def decodeEventLine (s : String) : Option Event :=
  (jsonParse s).bind decodeEvent

/-- Model of `Hub.ServeJobAPI` (`monitor.go`): empty id is a 400; a
missing file is the distinct 404; any other open failure is a 500;
otherwise scan the file line by line, skip lines that fail to decode,
and answer 200 with the decoded events (an empty slice encodes as an
empty list, not an error). -/
def serveJobAPI (fs : String → OpenResult) (id : String) : JobAPIResponse :=
  if id = "" then .badRequest
  else
    match fs id with
    | .notExist => .notFound
    | .ioError => .serverError
    | .content lines => .ok ((scanLines lines).filterMap decodeEventLine)

/-- Per-job summary row of the list endpoint (`jobSummary`). -/
structure JobSummary where
  id : String
  task : String
  startedAt : Int
  status : String
  costUSD : ℚ

/-- One event's contribution to a job summary, mirroring the scan loop of
`Hub.ServeJobList`: the first decoded event supplies the task text (when
its payload has a string `task`) and the start time; `llm_response`
events accumulate `cost_usd`; a terminal event sets the status and, when
present, its `total_cost_usd` authoritatively replaces the running sum. -/
def summarizeStep (acc : JobSummary × ℚ × Bool) (e : Event) :
    JobSummary × ℚ × Bool :=
  let s0 := acc.1
  let cost := acc.2.1
  let first := acc.2.2
  let s :=
    if first then
      let s1 :=
        match jlookup e.data "task" with
        | some (.str t) => { s0 with task := t }
        | _ => s0
      { s1 with startedAt := e.timestamp }
    else s0
  if e.type = "llm_response" then
    match jlookup e.data "cost_usd" with
    | some (.num v) => (s, cost + v, false)
    | _ => (s, cost, false)
  else if e.type = "job_completed" then
    match jlookup e.data "total_cost_usd" with
    | some (.num v) => ({ s with status := "completed" }, v, false)
    | _ => ({ s with status := "completed" }, cost, false)
  else if e.type = "job_error" then
    match jlookup e.data "total_cost_usd" with
    | some (.num v) => ({ s with status := "error" }, v, false)
    | _ => ({ s with status := "error" }, cost, false)
  else (s, cost, false)

/-- Model of the per-file part of `Hub.ServeJobList`: fold the job's
decoded events into its summary row (initial status `running`, zero
start time, zero cost). -/
def summarizeJob (id : String) (events : List Event) : JobSummary :=
  let r := events.foldl summarizeStep
    ({ id := id, task := "", startedAt := timeZeroSeconds,
       status := "running", costUSD := 0 }, 0, true)
  { r.1 with costUSD := r.2.1 }

/-! ## Chunk-boundary invariance of `Write` (claim C2) -/

/-- The byte loop never touches the raw accumulation. -/
theorem writeByte_raw (p : ParserState) (b : Char) :
    (writeByte p b).raw = p.raw := by
  unfold writeByte; split <;> rfl

/-- The byte loop commutes with overwriting the raw accumulation. -/
theorem writeByte_setRaw (p : ParserState) (r : List Char) (b : Char) :
    writeByte { p with raw := r } b = { writeByte p b with raw := r } := by
  unfold writeByte; split <;> rfl

/-- Folding the byte loop commutes with overwriting the raw accumulation. -/
theorem foldl_writeByte_setRaw (data : List Char) (p : ParserState) (r : List Char) :
    data.foldl writeByte { p with raw := r } = { data.foldl writeByte p with raw := r } := by
  induction data generalizing p with
  | nil => rfl
  | cons b rest ih => simp only [List.foldl_cons, writeByte_setRaw, ih]

/-- `Write` over a concatenation equals two consecutive `Write` calls. -/
theorem parserWrite_append (p : ParserState) (a b : List Char) :
    parserWrite p (a ++ b) = parserWrite (parserWrite p a) b := by
  simp only [parserWrite, List.foldl_append, foldl_writeByte_setRaw]
  simp [List.append_assoc]

/-- Feeding chunks one by one equals feeding their concatenation whole. -/
theorem writeAll_eq_join (p : ParserState) (chunks : List (List Char)) :
    writeAll p chunks = parserWrite p chunks.flatten := by
  induction chunks generalizing p with
  | nil =>
    show p = parserWrite p []
    simp [parserWrite]
  | cons c cs ih =>
    show writeAll (parserWrite p c) cs = _
    rw [ih, ← parserWrite_append, List.flatten_cons]

/-- C2: for every byte sequence and every split of it into chunks
(including mid-line splits), feeding the chunks to `Write` in order
produces the same translator state — in particular the same sequence of
emitted events, the same captured terminal state, and the same result
text — as one `Write` of the whole sequence. -/
theorem chunked_write_same_events (p : ParserState) (chunks : List (List Char)) :
    writeAll p chunks = parserWrite p chunks.flatten ∧
    (writeAll p chunks).core.events = (parserWrite p chunks.flatten).core.events ∧
    (writeAll p chunks).core.terminalState = (parserWrite p chunks.flatten).core.terminalState ∧
    (writeAll p chunks).core.result = (parserWrite p chunks.flatten).core.result := by
  refine ⟨writeAll_eq_join p chunks, ?_, ?_, ?_⟩ <;> rw [writeAll_eq_join]

/-! ## The persisted log is the accepted subset in order (claim C1) -/

/-- An `Emit` call on a non-full queue appends the next event. -/
theorem hubEmit_accept (h : HubState) (j t : String) (d : EmitData) (n : Int)
    (hj : j ≠ "") (hlen : h.queue.length < hubQueueCap) :
    hubEmit h j t d n =
      { queue := h.queue ++ [⟨toString (h.seq + 1), j, t, n, d⟩],
        seq := h.seq + 1, files := h.files } := by
  unfold hubEmit; rw [if_neg hj, if_pos hlen]

/-- An `Emit` call on a full queue drops the event but consumes an id. -/
theorem hubEmit_drop (h : HubState) (j t : String) (d : EmitData) (n : Int)
    (hj : j ≠ "") (hlen : ¬ h.queue.length < hubQueueCap) :
    hubEmit h j t d n = { h with seq := h.seq + 1 } := by
  unfold hubEmit; rw [if_neg hj, if_neg hlen]

/-- Dequeuing one event from a non-empty queue. -/
theorem hubRunStep_queue_cons (h : HubState) (e : Event) (rest : List Event)
    (hq : h.queue = e :: rest) :
    hubRunStep h =
      { queue := rest, seq := h.seq,
        files := fun j => if j = e.jobID then h.files j ++ [e] else h.files j } := by
  unfold hubRunStep; rw [hq]

/-- A hub with an empty queue is unchanged by a `run` iteration. -/
theorem hubRunStep_nil (h : HubState) (hq : h.queue = []) : hubRunStep h = h := by
  unfold hubRunStep; rw [hq]

/-- Draining appends exactly the queued events of a job, in queue order,
to that job's file. -/
theorem drain_files (j : String) :
    ∀ (q : List Event) (h : HubState), h.queue = q →
      (drain h).files j = h.files j ++ (q.filter fun e => e.jobID = j) := by
  intro q
  induction q with
  | nil =>
    intro h hq
    simp only [drain, hq, List.length_nil, drainAux, List.filter_nil, List.append_nil]
  | cons e rest ih =>
    intro h hq
    have hstep := hubRunStep_queue_cons h e rest hq
    have hlen : h.queue.length = rest.length + 1 := by rw [hq]; rfl
    have hdrain : drain h = drain (hubRunStep h) := by
      simp only [drain, hlen, drainAux, hstep]
    rw [hdrain, ih (hubRunStep h) (by rw [hstep])]
    rw [hstep]
    by_cases hje : e.jobID = j
    · simp [hje, List.filter_cons]
    · have : ¬ (j = e.jobID) := fun hc => hje hc.symm
      simp [this, hje, List.filter_cons]

/-- Invariant form of claim C1: for any interleaving of `Emit` calls for
job `j` with `run` iterations, the file contents after draining are the
prior contents, the events still queued, and then exactly the accepted
(non-dropped) events of the schedule, in call order. -/
theorem execSchedule_drain_files (j : String) (hj : j ≠ "") :
    ∀ (acts : List HubAction) (h : HubState), (∀ e ∈ h.queue, e.jobID = j) →
      (drain (execSchedule j h acts)).files j =
        h.files j ++ h.queue ++ acceptedOf j h.queue.length h.seq acts := by
  intro acts
  induction acts with
  | nil =>
    intro h hall
    have hfilter : (h.queue.filter fun e => e.jobID = j) = h.queue := by
      rw [List.filter_eq_self]
      intro a ha
      exact decide_eq_true (hall a ha)
    simp only [execSchedule, acceptedOf, List.append_nil]
    rw [drain_files j h.queue h rfl, hfilter]
  | cons act rest ih =>
    intro h hall
    match act with
    | .emit t d n =>
      simp only [execSchedule]
      by_cases hlen : h.queue.length < hubQueueCap
      · rw [hubEmit_accept h j t d n hj hlen]
        have hall2 : ∀ e ∈ h.queue ++ [(⟨toString (h.seq + 1), j, t, n, d⟩ : Event)],
            e.jobID = j := by
          intro e he
          rcases List.mem_append.mp he with h1 | h2
          · exact hall e h1
          · simp only [List.mem_singleton] at h2; rw [h2]
        have := ih { queue := h.queue ++ [⟨toString (h.seq + 1), j, t, n, d⟩],
                     seq := h.seq + 1, files := h.files } hall2
        simp only at this
        rw [this]
        simp only [acceptedOf, if_pos hlen, List.length_append, List.length_singleton]
        simp [List.append_assoc]
      · rw [hubEmit_drop h j t d n hj hlen]
        have := ih { h with seq := h.seq + 1 } hall
        simp only at this
        rw [this]
        simp only [acceptedOf, if_neg hlen]
    | .runStep =>
      match hq : h.queue with
      | [] =>
        have hrs := hubRunStep_nil h hq
        simp only [execSchedule, hrs]
        have := ih h hall
        rw [this]
        simp only [acceptedOf, hq]
        norm_num
      | e :: rest2 =>
        have he : e.jobID = j := hall e (by rw [hq]; exact List.mem_cons_self e rest2)
        have hstep := hubRunStep_queue_cons h e rest2 hq
        have hall2 : ∀ x ∈ (hubRunStep h).queue, x.jobID = j := by
          rw [hstep]
          intro x hx
          exact hall x (by rw [hq]; exact List.mem_cons_of_mem e hx)
        simp only [execSchedule]
        rw [ih (hubRunStep h) hall2, hstep]
        simp only [he, if_pos rfl, hq, List.length_cons, acceptedOf,
          Nat.add_sub_cancel]
        simp [List.append_assoc]

/-- C1: starting from a hub with nothing queued and an empty log for a
non-empty job id, any interleaving of sequential `Emit` calls for that
job with the processing loop leaves, once the queue is drained, a log
file holding exactly the events of the non-dropped `Emit` calls (those
that found the 4096-slot ingestion queue non-full), one record per line,
in the original call order. -/
theorem emit_log_exact_nondropped_in_order (j : String) (h : HubState)
    (acts : List HubAction) (hj : j ≠ "") (hq : h.queue = [])
    (hf : h.files j = []) :
    (drain (execSchedule j h acts)).files j = acceptedOf j 0 h.seq acts := by
  have hall : ∀ e ∈ h.queue, e.jobID = j := by rw [hq]; intro e he; cases he
  have := execSchedule_drain_files j hj acts h hall
  rw [hq] at this
  simpa [hf] using this

/-! ## Terminal-state capture in assistant text (claims C3, C5, C10) -/

/-- A list without a newline splits into itself. -/
theorem splitNl_no_nl (cs : List Char) (h : '\n' ∉ cs) : splitNl cs = [cs] := by
  induction cs with
  | nil => rfl
  | cons c rest ih =>
    have hc : c ≠ '\n' := fun e => absurd (e ▸ List.mem_cons_self c rest) h
    have hr : '\n' ∉ rest := fun m => h (List.mem_cons_of_mem c m)
    rw [splitNl.eq_def]
    split
    · rename_i heq; cases heq
    · rename_i heq; rw [List.cons.injEq] at heq; exact absurd heq.1 hc
    · rename_i c2 rest2 heq
      rw [List.cons.injEq] at heq
      rw [← heq.1, ← heq.2, ih hr]

/-- A string without a newline is a single line. -/
theorem goSplitLines_no_nl (s : String) (h : '\n' ∉ s.data) :
    goSplitLines s = [s] := by
  unfold goSplitLines
  rw [splitNl_no_nl s.data h]
  rfl

/-- Trimming the empty string. -/
theorem goTrimSpace_empty : goTrimSpace "" = "" := by decide

/-- A recognized terminal-state line always has a non-empty status. -/
theorem tryParse_status_ne (line : String) (ts : TerminalState)
    (h : tryParseTerminalState line = some ts) : ¬ ts.status = "" := by
  simp only [tryParseTerminalState] at h
  split at h
  · split at h
    · cases h
    · split at h
      · cases h
      · rename_i hnz
        cases h
        exact hnz
  · cases h

/-- A line whose trimmed form has the terminal-state prefix but whose
status field decodes empty is not recognized. -/
theorem tryParse_empty_status (line m : String)
    (hp : goHasPrefix (goTrimSpace line) terminalStatePrefix = true)
    (hd : (jsonParse (goTrimSpace line)).bind decodeTerminalState =
      some ⟨"", m⟩) :
    tryParseTerminalState line = none := by
  unfold tryParseTerminalState
  simp only [hp, if_true, hd]

/-- A string with the terminal-state prefix is non-empty. -/
theorem prefixed_ne_empty (s : String)
    (h : goHasPrefix s terminalStatePrefix = true) : s ≠ "" := by
  intro e
  rw [e] at h
  exact absurd h (by decide)

/-- Processing a single-line text segment that is a recognized
terminal-state candidate: the state is captured (overwriting any earlier
capture) and nothing is emitted or notified. -/
theorem processTextBlock_capture (p : ParserCore) (parent line : String)
    (ts : TerminalState) (hnl : '\n' ∉ line.data)
    (h : tryParseTerminalState line = some ts) :
    processTextBlock p parent line = { p with terminalState := ts } := by
  unfold processTextBlock
  rw [goSplitLines_no_nl line hnl]
  simp only [List.foldl_cons, List.foldl_nil, h, joinNl, goTrimSpace_empty,
    ne_eq, not_true_eq_false, and_false, if_false]

/-- Processing a single-line text segment that is not a terminal-state
candidate and is non-blank: the line is notified (for top-level turns
with a notifier) and emitted; the captured state is untouched. -/
theorem processTextBlock_pass (p : ParserCore) (parent line : String)
    (hnl : '\n' ∉ line.data) (h : tryParseTerminalState line = none)
    (hne : goTrimSpace line ≠ "") :
    processTextBlock p parent line =
      (let p1 := if p.hasNotifier ∧ parent = "" then coreNotify p line else p;
       coreEmitText p1 line) := by
  unfold processTextBlock
  rw [goSplitLines_no_nl line hnl]
  simp only [List.foldl_cons, List.foldl_nil, h, joinNl, hne, ne_eq,
    not_false_eq_true, and_true, if_true, List.nil_append]

/-- Event-emission helpers leave every field but `events` unchanged. -/
theorem coreEmit_spec (p : ParserCore) (d : EmitData) :
    coreEmit p d =
      { p with events := if p.hasHub ∧ p.jobID ≠ "" then p.events ++ [d] else p.events } := by
  unfold coreEmit
  split <;> rfl

/-- C3: a processed line that (after trimming) carries the terminal-state
prefix and decodes to a record with non-empty status is captured as the
Terminal State and excluded from `claude_code_line` text emission; the
otherwise-identical line whose status field is empty is not captured and
is emitted as a plain text event. -/
theorem terminal_line_captured_empty_status_emitted (p : ParserCore)
    (parent line : String) (hhub : p.hasHub = true) (hjob : p.jobID ≠ "")
    (hnl : '\n' ∉ line.data) :
    (∀ ts, tryParseTerminalState line = some ts →
      (processTextBlock p parent line).terminalState = ts ∧
      (processTextBlock p parent line).events = p.events) ∧
    (∀ m, goHasPrefix (goTrimSpace line) terminalStatePrefix = true →
      (jsonParse (goTrimSpace line)).bind decodeTerminalState = some ⟨"", m⟩ →
      (processTextBlock p parent line).terminalState = p.terminalState ∧
      (processTextBlock p parent line).events =
        p.events ++ [[("text", JValue.str line)]]) := by
  constructor
  · intro ts hts
    rw [processTextBlock_capture p parent line ts hnl hts]
    exact ⟨rfl, rfl⟩
  · intro m hp hd
    have hnone := tryParse_empty_status line m hp hd
    have hne : goTrimSpace line ≠ "" := prefixed_ne_empty _ hp
    rw [processTextBlock_pass p parent line hnl hnone hne]
    simp only [coreEmitText, coreEmit_spec]
    constructor
    · split <;> rfl
    · split <;> rename_i hcn
      · simp [coreNotify, hhub, hjob]
      · simp [hhub, hjob]

/-! ## Result-record processing preserves a captured state (C5, C10, C6) -/

/-- The result text choice of the `result` branch (error payload wins
when status is `error` and the error text is non-empty). -/
def resOf (evt : StreamEvent) : String :=
  if evt.subtype = "error" ∧ evt.error ≠ "" then evt.error else evt.result

/-- The non-blank-line emission fold only appends events. -/
theorem foldl_emitText_eq (lines : List String) (p : ParserCore) :
    ∃ evs, lines.foldl
        (fun q textLine => if goTrimSpace textLine ≠ "" then coreEmitText q textLine else q) p
      = { p with events := evs } := by
  induction lines generalizing p with
  | nil => exact ⟨p.events, rfl⟩
  | cons l rest ih =>
    simp only [List.foldl_cons]
    by_cases hl : goTrimSpace l ≠ ""
    · rw [if_pos hl]
      have h2 : coreEmitText p l =
          { p with events :=
              if p.hasHub ∧ p.jobID ≠ "" then p.events ++ [[("text", JValue.str l)]]
              else p.events } := by
        unfold coreEmitText
        rw [coreEmit_spec]
      rw [h2]
      exact ih _
    · rw [if_neg hl]
      exact ih p

/-- The emission fold does not change the captured terminal state. -/
theorem foldl_emitText_terminalState (lines : List String) (p : ParserCore) :
    (lines.foldl
        (fun q textLine => if goTrimSpace textLine ≠ "" then coreEmitText q textLine else q)
        p).terminalState = p.terminalState := by
  obtain ⟨evs, hevs⟩ := foldl_emitText_eq lines p
  rw [hevs]

/-- The emission fold does not change the notification log. -/
theorem foldl_emitText_notifications (lines : List String) (p : ParserCore) :
    (lines.foldl
        (fun q textLine => if goTrimSpace textLine ≠ "" then coreEmitText q textLine else q)
        p).notifications = p.notifications := by
  obtain ⟨evs, hevs⟩ := foldl_emitText_eq lines p
  rw [hevs]

/-- The emission fold does not change the notifier flag. -/
theorem foldl_emitText_hasNotifier (lines : List String) (p : ParserCore) :
    (lines.foldl
        (fun q textLine => if goTrimSpace textLine ≠ "" then coreEmitText q textLine else q)
        p).hasNotifier = p.hasNotifier := by
  obtain ⟨evs, hevs⟩ := foldl_emitText_eq lines p
  rw [hevs]

/-- The emission fold does not change the suppression flag. -/
theorem foldl_emitText_suppress (lines : List String) (p : ParserCore) :
    (lines.foldl
        (fun q textLine => if goTrimSpace textLine ≠ "" then coreEmitText q textLine else q)
        p).suppressResultNotify = p.suppressResultNotify := by
  obtain ⟨evs, hevs⟩ := foldl_emitText_eq lines p
  rw [hevs]

/-- A `result` record never replaces an already-captured terminal state. -/
theorem processResultEvent_ts_preserved (p : ParserCore) (evt : StreamEvent)
    (h : ¬ p.terminalState.status = "") :
    (processResultEvent p evt).terminalState = p.terminalState := by
  unfold processResultEvent
  dsimp only
  rw [if_neg h]
  split <;> split <;> (try simp only [coreNotify]) <;>
    rw [foldl_emitText_terminalState]

/-- With the suppression flag set, a `result` record adds no notification. -/
theorem processResultEvent_notify_suppressed (p : ParserCore) (evt : StreamEvent)
    (hs : p.suppressResultNotify = true) :
    (processResultEvent p evt).notifications = p.notifications := by
  unfold processResultEvent
  dsimp only
  by_cases hts : p.terminalState.status = ""
  · rw [if_pos hts]
    rcases hft : firstTerminalState (goSplitLines
        (if evt.subtype = "error" ∧ evt.error ≠ "" then evt.error else evt.result)) with _ | ts <;>
      dsimp only <;>
      rw [if_neg (fun hc => hc.2.2 (by rw [foldl_emitText_suppress]; exact hs))] <;>
      rw [foldl_emitText_notifications]
  · rw [if_neg hts]
    rw [if_neg (fun hc => hc.2.2 (by rw [foldl_emitText_suppress]; exact hs))]
    rw [foldl_emitText_notifications]

/-- A non-blank line that decodes to a `result` record is handled by the
result branch. -/
theorem processLine_result_dispatch (p : ParserCore) (rline : String)
    (evt : StreamEvent)
    (hr : (jsonParse (goTrimSpace rline)).bind decodeStreamEvent = some evt)
    (hres : evt.type = "result") :
    processLine p rline = processResultEvent p evt := by
  have hne : ¬ (goTrimSpace rline = "") := by
    intro e
    rw [e] at hr
    rw [show (jsonParse "").bind decodeStreamEvent = none from rfl] at hr
    cases hr
  unfold processLine
  dsimp only
  rw [if_neg hne, hr]
  dsimp only
  rw [hres]
  rw [if_neg (by decide), if_neg (by decide), if_pos rfl]

/-- C5: when a valid terminal-state candidate appears in an assistant-turn
text segment, and the final `result` record's text holds another
candidate, the assistant-turn candidate (the first encountered) stays the
captured Terminal State — the result-record candidate does not replace it. -/
theorem assistant_candidate_beats_result_candidate (p : ParserCore)
    (parent tline rline : String) (ts : TerminalState) (evt : StreamEvent)
    (hnl : '\n' ∉ tline.data)
    (ht : tryParseTerminalState tline = some ts)
    (hr : (jsonParse (goTrimSpace rline)).bind decodeStreamEvent = some evt)
    (hres : evt.type = "result") :
    (processLine (processTextBlock p parent tline) rline).terminalState = ts := by
  rw [processTextBlock_capture p parent tline ts hnl ht]
  rw [processLine_result_dispatch _ rline evt hr hres]
  exact processResultEvent_ts_preserved _ evt (tryParse_status_ne tline ts ht)

/-- C10: among several assistant-turn terminal-state candidates the most
recently seen one is kept (each new assistant candidate overwrites the
previous capture), while a candidate in a later final-result record
defers to the captured one. -/
theorem newest_assistant_candidate_overwrites (p : ParserCore)
    (parent l1 l2 : String) (ts1 ts2 : TerminalState)
    (h1nl : '\n' ∉ l1.data) (h2nl : '\n' ∉ l2.data)
    (h1 : tryParseTerminalState l1 = some ts1)
    (h2 : tryParseTerminalState l2 = some ts2) :
    (processTextBlock (processTextBlock p parent l1) parent l2).terminalState = ts2 ∧
    (∀ (rline : String) (evt : StreamEvent),
      (jsonParse (goTrimSpace rline)).bind decodeStreamEvent = some evt →
      evt.type = "result" →
      (processLine (processTextBlock (processTextBlock p parent l1) parent l2)
        rline).terminalState = ts2) := by
  rw [processTextBlock_capture p parent l1 ts1 h1nl h1,
      processTextBlock_capture _ parent l2 ts2 h2nl h2]
  refine ⟨rfl, ?_⟩
  intro rline evt hr hres
  rw [processLine_result_dispatch _ rline evt hr hres]
  exact processResultEvent_ts_preserved _ evt (tryParse_status_ne l2 ts2 h2)

/-! ## Concrete inputs shared by the witnesses -/

/-- A job id used in concrete scenarios. -/
def jobJ : String := "job-7"

/-- Empty parent id (a top-level, non-sub-agent record). -/
def noParent : String := ""

/-- A translator core connected to a hub and a notifier. -/
def coreW : ParserCore := initCore true jobJ true false 0

/-- A terminal-state line with status `completed`. -/
def tsLineA : String := "\x7b\"status\":\"completed\",\"message\":\"first\"\x7d"

/-- The record `tsLineA` denotes. -/
def tsA : TerminalState := ⟨"completed", "first"⟩

/-- A different terminal-state line with status `error`. -/
def tsLineB : String := "\x7b\"status\":\"error\",\"message\":\"second\"\x7d"

/-- The record `tsLineB` denotes. -/
def tsB : TerminalState := ⟨"error", "second"⟩

/-- The `tsLineA` variant whose status field is the empty string. -/
def tsLineEmpty : String := "\x7b\"status\":\"\",\"message\":\"first\"\x7d"

/-- A `result` stream record whose result text is `tsLineB`. -/
def resultLineB : String :=
  "\x7b\"type\":\"result\",\"result\":\"\x7b\\\"status\\\":\\\"error\\\",\\\"message\\\":\\\"second\\\"\x7d\"\x7d"

/-- The decoded form of `resultLineB`. -/
def evtB : StreamEvent :=
  { type := "result", message := {}, result := tsLineB }

/-- Witness for C3 at concrete inputs. -/
theorem terminal_line_captured_empty_status_emitted_witness :
    coreW.hasHub = true ∧ coreW.jobID ≠ "" ∧
    '\n' ∉ tsLineA.data ∧ '\n' ∉ tsLineEmpty.data ∧
    tryParseTerminalState tsLineA = some tsA ∧
    ((processTextBlock coreW noParent tsLineA).terminalState = tsA ∧
     (processTextBlock coreW noParent tsLineA).events = coreW.events) ∧
    ((processTextBlock coreW noParent tsLineEmpty).terminalState = coreW.terminalState ∧
     (processTextBlock coreW noParent tsLineEmpty).events =
       coreW.events ++ [[("text", JValue.str tsLineEmpty)]]) := by
  refine ⟨rfl, by decide, by decide, by decide, by decide, ?_, ?_⟩
  · exact (terminal_line_captured_empty_status_emitted coreW noParent tsLineA
      rfl (by decide) (by decide)).1 tsA (by decide)
  · exact (terminal_line_captured_empty_status_emitted coreW noParent tsLineEmpty
      rfl (by decide) (by decide)).2 "first" (by decide) (by rfl)

/-- Witness for C5 at concrete inputs. -/
theorem assistant_candidate_beats_result_candidate_witness :
    '\n' ∉ tsLineA.data ∧
    tryParseTerminalState tsLineA = some tsA ∧
    (jsonParse (goTrimSpace resultLineB)).bind decodeStreamEvent = some evtB ∧
    evtB.type = "result" ∧
    (processLine (processTextBlock coreW noParent tsLineA) resultLineB).terminalState = tsA := by
  refine ⟨by decide, by decide, by rfl, rfl, ?_⟩
  exact assistant_candidate_beats_result_candidate coreW noParent tsLineA resultLineB
    tsA evtB (by decide) (by decide) (by rfl) rfl

/-- Witness for C10 at concrete inputs. -/
theorem newest_assistant_candidate_overwrites_witness :
    '\n' ∉ tsLineA.data ∧ '\n' ∉ tsLineB.data ∧
    tryParseTerminalState tsLineA = some tsA ∧
    tryParseTerminalState tsLineB = some tsB ∧
    (processTextBlock (processTextBlock coreW noParent tsLineA) noParent tsLineB).terminalState = tsB ∧
    (processLine (processTextBlock (processTextBlock coreW noParent tsLineA) noParent tsLineB)
      resultLineB).terminalState = tsB := by
  have h := newest_assistant_candidate_overwrites coreW noParent tsLineA tsLineB
    tsA tsB (by decide) (by decide) (by decide) (by decide)
  exact ⟨by decide, by decide, by decide, by decide, h.1,
    h.2 resultLineB evtB (by rfl) rfl⟩

/-! ## The planning-mode suppression flag (claim C6) -/

/-- A translator core in planning mode: notifier attached, suppression on. -/
def pC6 : ParserCore := initCore true jobJ true true 0

/-- Text of a top-level assistant commentary block. -/
def helloWorld : String := "hello world"

/-- An `assistant` stream record with one top-level text block. -/
def assistantHello : String :=
  "\x7b\"type\":\"assistant\",\"message\":\x7b\"content\":[\x7b\"type\":\"text\",\"text\":\"hello world\"\x7d]\x7d\x7d"

/-- C6 counterexample: with the planning-mode flag set (and a notifier
attached, as the orchestrator always passes one), processing a top-level
assistant commentary record still forwards its text to the notification
sink — so it is false that nothing from such a run reaches the sink. -/
theorem planning_mode_still_notifies_counterexample :
    pC6.suppressResultNotify = true ∧ pC6.hasNotifier = true ∧
    (processLine pC6 assistantHello).notifications =
      pC6.notifications ++ [helloWorld] ∧
    pC6.notifications ++ [helloWorld] ≠ pC6.notifications := by
  refine ⟨rfl, rfl, by rfl, ?_⟩
  intro h
  simpa using congrArg List.length h

/-- C6 amended: with the planning-mode flag set, the final result text is
not forwarded to the notification sink, but top-level assistant
commentary still is. -/
theorem suppress_flag_only_blocks_result_notify (p : ParserCore)
    (hsup : p.suppressResultNotify = true) :
    (∀ (rline : String) (evt : StreamEvent),
      (jsonParse (goTrimSpace rline)).bind decodeStreamEvent = some evt →
      evt.type = "result" →
      (processLine p rline).notifications = p.notifications) ∧
    (∀ (line : String), p.hasNotifier = true → '\n' ∉ line.data →
      tryParseTerminalState line = none → goTrimSpace line ≠ "" →
      (processTextBlock p noParent line).notifications =
        p.notifications ++ [line]) := by
  constructor
  · intro rline evt hr hres
    rw [processLine_result_dispatch p rline evt hr hres]
    exact processResultEvent_notify_suppressed p evt hsup
  · intro line hn hnl hnone hne
    rw [processTextBlock_pass p noParent line hnl hnone hne]
    dsimp only
    rw [if_pos ⟨hn, rfl⟩]
    simp only [coreEmitText, coreEmit_spec, coreNotify]

/-- A plain commentary line for the C6 witness. -/
def plainLine : String := "working on it"

/-- Witness for the amended C6 at concrete inputs. -/
theorem suppress_flag_only_blocks_result_notify_witness :
    pC6.suppressResultNotify = true ∧
    (processLine pC6 resultLineB).notifications = pC6.notifications ∧
    (processTextBlock pC6 noParent plainLine).notifications =
      pC6.notifications ++ [plainLine] :=
  ⟨rfl,
   (suppress_flag_only_blocks_result_notify pC6 rfl).1 resultLineB evtB (by rfl) rfl,
   (suppress_flag_only_blocks_result_notify pC6 rfl).2 plainLine rfl (by decide)
     (by decide) (by decide)⟩

/-! ## Stream end with a buffered partial line (claim C4) -/

/-- A translator attached to a hub (no notifier). -/
def pInitW : ParserState := initParser true jobJ false false 0

/-- Three buffered bytes with no line terminator. -/
def abcChars : List Char := ['a', 'b', 'c']

/-- The same bytes as a string. -/
def abcStr : String := "abc"

/-- C4 counterexample: in the source, `runClaudeCode` only calls
`cmd.Run()` with the parser as stdout/stderr and then reads its fields —
`claudeStreamParser` has no flush or close method, and `Write` invokes
`processLine` solely on a newline byte.  So when the stream ends with
`abc` buffered and no terminator, the bytes sit unprocessed in the line
buffer: nothing is emitted and no state is captured — while the same
content with a terminator is classified and emitted as a text event.
The partial content is therefore not treated as a complete line. -/
theorem trailing_partial_line_not_processed_counterexample :
    (parserWrite pInitW abcChars).core.events = [] ∧
    (parserWrite pInitW abcChars).core.terminalState =
      pInitW.core.terminalState ∧
    (parserWrite pInitW abcChars).lineBuf = abcChars ∧
    (parserWrite pInitW (abcChars ++ ['\n'])).core.events =
      [[("text", JValue.str abcStr)]] ∧
    ([] : List EmitData) ≠ [[("text", JValue.str abcStr)]] := by
  refine ⟨rfl, rfl, rfl, rfl, ?_⟩
  intro h
  simpa using congrArg List.length h

/-- A newline-free chunk only grows the line buffer. -/
theorem foldl_writeByte_no_nl (data : List Char) (p : ParserState)
    (h : '\n' ∉ data) :
    data.foldl writeByte p = { p with lineBuf := p.lineBuf ++ data } := by
  induction data generalizing p with
  | nil => simp
  | cons b rest ih =>
    have hb : b ≠ '\n' := fun e => absurd (e ▸ List.mem_cons_self b rest) h
    have hr : '\n' ∉ rest := fun m => h (List.mem_cons_of_mem b m)
    simp only [List.foldl_cons]
    rw [show writeByte p b = { p with lineBuf := p.lineBuf ++ [b] } from by
      unfold writeByte; rw [if_neg hb]]
    rw [ih _ hr]
    simp [List.append_assoc]

/-- C4 amended: content buffered when the stream ends without a trailing
terminator is never processed: it is neither classified, emitted nor
captured — the processing core is untouched; the bytes remain only in
the line buffer and the raw accumulation (so they surface in the
fallback output, not as events). -/
theorem trailing_partial_line_stays_buffered (p : ParserState)
    (data : List Char) (h : '\n' ∉ data) :
    (parserWrite p data).core = p.core ∧
    (parserWrite p data).lineBuf = p.lineBuf ++ data ∧
    (parserWrite p data).raw = p.raw ++ data := by
  unfold parserWrite
  dsimp only
  rw [foldl_writeByte_setRaw, foldl_writeByte_no_nl data p h]
  exact ⟨rfl, rfl, rfl⟩

/-- Witness for the amended C4 at concrete inputs. -/
theorem trailing_partial_line_stays_buffered_witness :
    '\n' ∉ abcChars ∧
    (parserWrite pInitW abcChars).core = pInitW.core ∧
    (parserWrite pInitW abcChars).lineBuf = pInitW.lineBuf ++ abcChars ∧
    (parserWrite pInitW abcChars).raw = pInitW.raw ++ abcChars := by
  have h := trailing_partial_line_stays_buffered pInitW abcChars (by decide)
  exact ⟨by decide, h.1, h.2.1, h.2.2⟩

/-! ## Delegated sub-task aggregation (claim C7) -/

/-- An `assistant` record invoking the `Task` tool with id `t1`. -/
def toolUseLine : String :=
  "\x7b\"type\":\"assistant\",\"message\":\x7b\"content\":[\x7b\"type\":\"tool_use\",\"name\":\"Task\",\"id\":\"t1\",\"input\":\x7b\"description\":\"index the repo\"\x7d\x7d]\x7d\x7d"

/-- A `user` record carrying the non-error `tool_result` for `t1`. -/
def toolResultLine : String :=
  "\x7b\"type\":\"user\",\"message\":\x7b\"content\":[\x7b\"type\":\"tool_result\",\"tool_use_id\":\"t1\"\x7d]\x7d\x7d"

/-- The delegated sub-task's description. -/
def taskDescStr : String := "index the repo"

/-- The sub-task invocation id. -/
def t1Str : String := "t1"

/-- The `Task` tool name. -/
def taskToolName : String := "Task"

/-- The rendered raw input of the `Task` invocation. -/
def taskInputRendered : String := "\x7b\"description\":\"index the repo\"\x7d"

set_option maxRecDepth 40000 in
/-- C7: after the `Task` invocation `t1` (with a description) and a later
non-error `tool_result` for `t1`, exactly one aggregated
`agents_finished` event listing that description is emitted for the
result record; `t1` is removed from the pending map, and replaying the
same result record emits nothing further. -/
theorem delegated_task_resolved_once :
    (processLine (processLine coreW toolUseLine) toolResultLine).events =
      coreW.events ++
        [[("tool_name", JValue.str taskToolName),
          ("tool_input", JValue.str taskInputRendered)],
         [("agents_finished", JValue.num 1),
          ("agents", JValue.arr [JValue.obj [("description", JValue.str taskDescStr)]])]] ∧
    assocGet (processLine (processLine coreW toolUseLine) toolResultLine).pendingTaskDescs
      t1Str = none ∧
    (processLine (processLine (processLine coreW toolUseLine) toolResultLine)
        toolResultLine).events =
      (processLine (processLine coreW toolUseLine) toolResultLine).events :=
  ⟨rfl, rfl, rfl⟩

/-! ## Concrete hub scenarios (claims C1, C9) -/

/-- A freshly constructed hub: empty queue, zero sequence, no log files. -/
def hubInit : HubState := { queue := [], seq := 0, files := fun _ => [] }

/-- A job id used by the hub scenarios. -/
def jobOne : String := "job-1"

/-- Event type constant `EventJobStarted`. -/
def evJobStarted : String := "job_started"

/-- Event type constant `EventJobCompleted`. -/
def evJobCompleted : String := "job_completed"

/-- Event type constant `EventClaudeCodeLine`. -/
def evClaudeCodeLine : String := "claude_code_line"

/-- Declared task text of the scenarios. -/
def fixBugStr : String := "fix bug"

/-- A short output line. -/
def hiStr : String := "hi"

/-- A schedule interleaving three `Emit` calls with `run` iterations. -/
def actsC1 : List HubAction :=
  [.emit evJobStarted [("task", JValue.str fixBugStr)] 100,
   .runStep,
   .emit evClaudeCodeLine [("text", JValue.str hiStr)] 150,
   .emit evJobCompleted [("total_cost_usd", JValue.num (0.42 : ℚ))] 200]

/-- Witness for C1 at a concrete schedule. -/
theorem emit_log_exact_nondropped_in_order_witness :
    jobOne ≠ "" ∧ hubInit.queue = [] ∧ hubInit.files jobOne = [] ∧
    (drain (execSchedule jobOne hubInit actsC1)).files jobOne =
      acceptedOf jobOne 0 hubInit.seq actsC1 :=
  ⟨by decide, rfl, rfl,
   emit_log_exact_nondropped_in_order jobOne hubInit actsC1 (by decide) rfl rfl⟩

/-- The two `Emit` calls of the C9 scenario. -/
def actsC9 : List HubAction :=
  [.emit evJobStarted [("task", JValue.str fixBugStr)] 100,
   .emit evJobCompleted [("total_cost_usd", JValue.num (0.42 : ℚ))] 200]

/-- C9: after `Emit(job-1, job_started, {task: fix bug})` followed by
`Emit(job-1, job_completed, {total_cost_usd: 0.42})`, the job's log holds
exactly those two events, and the list endpoint summarizes job-1 with
status `completed`, cost `0.42` (the terminal event's authoritative
total), and task `fix bug` from the first event.  (The spec names event
types with hyphens; the code's constants use underscores.) -/
theorem job_list_summary_scenario :
    (drain (execSchedule jobOne hubInit actsC9)).files jobOne =
      [⟨"1", jobOne, evJobStarted, 100, [("task", JValue.str fixBugStr)]⟩,
       ⟨"2", jobOne, evJobCompleted, 200, [("total_cost_usd", JValue.num (0.42 : ℚ))]⟩] ∧
    summarizeJob jobOne ((drain (execSchedule jobOne hubInit actsC9)).files jobOne) =
      { id := jobOne, task := fixBugStr, startedAt := 100,
        status := "completed", costUSD := (0.42 : ℚ) } :=
  ⟨rfl, rfl⟩

/-! ## The history read path (claim C8) -/

/-- A log file id for the read-path scenarios. -/
def jobX : String := "job-x"

/-- A well-formed persisted event line (id 1). -/
def evLine1 : String :=
  "\x7b\"id\":\"1\",\"job_id\":\"job-x\",\"type\":\"job_started\",\"timestamp\":\"1970-01-01T00:00:00Z\",\"data\":\x7b\"task\":\"fix bug\"\x7d\x7d"

/-- A well-formed persisted event line (id 2). -/
def evLine2 : String :=
  "\x7b\"id\":\"2\",\"job_id\":\"job-x\",\"type\":\"claude_code_line\",\"timestamp\":\"1970-01-01T00:00:01Z\",\"data\":\x7b\"text\":\"hi\"\x7d\x7d"

/-- The event `evLine1` denotes. -/
def e1C8 : Event := ⟨"1", jobX, evJobStarted, 0, [("task", JValue.str fixBugStr)]⟩

/-- The event `evLine2` denotes. -/
def e2C8 : Event := ⟨"2", jobX, evClaudeCodeLine, 1, [("text", JValue.str hiStr)]⟩

/-- A log line at the scanner's token limit (one mebibyte of `a`). -/
def hugeLine : String := String.mk (List.replicate scannerMaxToken 'a')

/-- The oversized line has exactly the limit length. -/
theorem hugeLine_length : hugeLine.length = scannerMaxToken := by
  simp [hugeLine, String.length]

/-- A store whose only file holds a parseable line, an oversized line,
then another parseable line. -/
def fsC8 : String → OpenResult := fun _ => .content [evLine1, hugeLine, evLine2]

/-- The scan stops silently at the oversized line. -/
theorem scanLines_c8 : scanLines [evLine1, hugeLine, evLine2] = [evLine1] := by
  simp only [scanLines]
  rw [if_neg (by decide), if_pos (by simp [hugeLine_length])]

/-- C8 counterexample: in a file whose middle line reaches the 1 MiB
scanner token limit, the final line parses as an event yet is not
returned — the read path answers with the events before the oversized
line only, so it is false that every parse-failing line is merely
skipped with all remaining parsed events returned. -/
theorem history_read_truncates_counterexample :
    decodeEventLine evLine1 = some e1C8 ∧
    decodeEventLine evLine2 = some e2C8 ∧
    serveJobAPI fsC8 jobX = .ok [e1C8] ∧
    JobAPIResponse.ok [e1C8] ≠ JobAPIResponse.ok [e1C8, e2C8] := by
  refine ⟨by rfl, by rfl, ?_, ?_⟩
  · unfold serveJobAPI
    rw [if_neg (by decide)]
    dsimp only [fsC8]
    rw [scanLines_c8]
    rfl
  · intro h
    have := congrArg (fun r => match r with | JobAPIResponse.ok es => es.length | _ => 0) h
    simp at this

/-- Scanning a file with no oversized lines yields every line. -/
theorem scanLines_all_small (lines : List String)
    (h : ∀ l ∈ lines, l.length < scannerMaxToken) : scanLines lines = lines := by
  induction lines with
  | nil => rfl
  | cons l rest ih =>
    rw [scanLines.eq_def]
    dsimp only
    rw [if_neg (Nat.not_le.mpr (h l (List.mem_cons_self l rest)))]
    rw [ih fun x hx => h x (List.mem_cons_of_mem l hx)]

/-- C8 amended: an empty-id request aside, the history read path answers
the distinct not-found signal when no log file exists and a server error
for any other open fault; when the file exists and no line reaches the
1 MiB scanner token limit, every line that fails to decode as an event
is skipped and the remaining decoded events are returned in file order
(an empty result is an empty list, not an error).  A line at or beyond
the token limit silently ends the scan: events decoded from earlier
lines are still returned, later lines are not reached. -/
theorem history_read_path_behavior (fs : String → OpenResult) (id : String)
    (hid : id ≠ "") :
    (fs id = .notExist → serveJobAPI fs id = .notFound) ∧
    (fs id = .ioError → serveJobAPI fs id = .serverError) ∧
    (∀ lines, fs id = .content lines →
      (∀ l ∈ lines, l.length < scannerMaxToken) →
      serveJobAPI fs id = .ok (lines.filterMap decodeEventLine)) := by
  refine ⟨?_, ?_, ?_⟩
  · intro h
    unfold serveJobAPI
    rw [if_neg hid, h]
  · intro h
    unfold serveJobAPI
    rw [if_neg hid, h]
  · intro lines h hsmall
    unfold serveJobAPI
    rw [if_neg hid, h]
    dsimp only
    rw [scanLines_all_small lines hsmall]

/-- Stores for the C8 witness. -/
def fsNone : String → OpenResult := fun _ => .notExist

/-- A store whose open calls fail with a non-not-found fault. -/
def fsFault : String → OpenResult := fun _ => .ioError

/-- A store holding the two well-formed lines and one junk line. -/
def fsOk : String → OpenResult := fun _ => .content [evLine1, "not json", evLine2]

/-- Witness for the amended C8 at concrete stores. -/
theorem history_read_path_behavior_witness :
    jobX ≠ "" ∧
    serveJobAPI fsNone jobX = .notFound ∧
    serveJobAPI fsFault jobX = .serverError ∧
    serveJobAPI fsOk jobX =
      .ok ([evLine1, "not json", evLine2].filterMap decodeEventLine) :=
  ⟨by decide,
   (history_read_path_behavior fsNone jobX (by decide)).1 rfl,
   (history_read_path_behavior fsFault jobX (by decide)).2.1 rfl,
   (history_read_path_behavior fsOk jobX (by decide)).2.2
     [evLine1, "not json", evLine2] rfl (by decide)⟩
